import Mathlib

/-!
Shallow embedding of the store-monitoring temporal reconciliation engine
(src/store_monitoring/interpolation.py, time_utils.py, reporting.py).

Modelling conventions:
* UTC instants and durations are integer microsecond counts (`Int`);
  Python datetimes have microsecond resolution, so this is exact.
* Local calendar dates are integer day numbers; day `d` spans local
  microseconds `[d * microsPerDay, (d+1) * microsPerDay)`, and day 0 is a
  Monday, so `date.weekday()` is `d.emod 7` (0 = Monday, matching the
  repository's day_of_week convention).
* Timezones are modelled as fixed UTC offsets in microseconds (`Int`),
  i.e. the DST-free case; `convert_utc_to_local` adds the offset and
  `datetime.combine(...).replace(tzinfo=tz).astimezone(utc)` subtracts it.
* Python's stable in-place `list.sort` is modelled by insertion sort, which
  is also stable, on a key comparison; the in-place mutation is exposed by
  `get_status_intervals_post`, the caller's list as left behind by the call.
-/

def microsPerDay : Int := 86400000000

def microsPerHour : Int := 3600000000

/-- One row of `store_status_polls` as consumed by `get_status_intervals`
(interpolation.py): a UTC timestamp and a status string. -/
structure StoreStatusPoll where
  timestamp_utc : Int
  status : String
deriving DecidableEq, Repr

/-- A `(start_time_utc, end_time_utc, status)` tuple as returned by
`get_status_intervals`. -/
abbrev StatusInterval := Int × Int × String

/-- The comparison key of `polls.sort(key=lambda p: p.timestamp_utc)`. -/
def pollKeyLe (p q : StoreStatusPoll) : Prop := p.timestamp_utc ≤ q.timestamp_utc

instance : DecidableRel pollKeyLe :=
  fun p q => inferInstanceAs (Decidable (p.timestamp_utc ≤ q.timestamp_utc))

instance : IsTotal StoreStatusPoll pollKeyLe :=
  ⟨fun a b => Int.le_total a.timestamp_utc b.timestamp_utc⟩

instance : IsTrans StoreStatusPoll pollKeyLe :=
  ⟨fun _ _ _ hab hbc => Int.le_trans hab hbc⟩

/-- `polls.sort(key=lambda p: p.timestamp_utc)` — Python's `list.sort` is a
stable sort by the key; any stable sort computes the same list, modelled here
by insertion sort (which is stable for this comparison). -/
def sortPolls (polls : List StoreStatusPoll) : List StoreStatusPoll :=
  polls.insertionSort pollKeyLe

/-- The `for i in range(len(polls) - 1)` loop of `get_status_intervals`
(interpolation.py lines 49-54): one interval per consecutive pair of sorted
polls, carrying the earlier poll's status. -/
def pairwiseIntervals : List StoreStatusPoll → List StatusInterval
  | a :: b :: rest =>
    (a.timestamp_utc, b.timestamp_utc, a.status) :: pairwiseIntervals (b :: rest)
  | _ => []

/-- Lines 38-67 of interpolation.py, applied to the already-sorted poll list;
`origLen` is `len(polls)` of the caller's list (used by the final check on
line 64). `p :: ps` is the sorted list, so `p` is `polls[0]` after the
in-place sort and `(p :: ps).getLast` is `polls[-1]`. -/
def assembleIntervals (sorted : List StoreStatusPoll) (origLen : Nat)
    (window_start_utc window_end_utc : Int) : List StatusInterval :=
  match sorted with
  | [] => []
  | p :: ps =>
    let lastPoll := (p :: ps).getLast (List.cons_ne_nil p ps)
    let backward : List StatusInterval :=
      if window_start_utc < p.timestamp_utc then
        [(window_start_utc, p.timestamp_utc, p.status)]
      else []
    let middle := pairwiseIntervals (p :: ps)
    let forward : List StatusInterval :=
      if lastPoll.timestamp_utc < window_end_utc then
        [(lastPoll.timestamp_utc, window_end_utc, lastPoll.status)]
      else []
    let intervals := backward ++ middle ++ forward
    if intervals = [] ∧ origLen = 1 then
      [(window_start_utc, window_end_utc, p.status)]
    else intervals

/-- `get_status_intervals` (interpolation.py lines 6-67): empty input yields a
single inactive interval; otherwise the polls are sorted by timestamp and the
backward-extrapolation, pairwise-fill and forward-extrapolation intervals are
assembled. -/
def get_status_intervals (polls : List StoreStatusPoll)
    (window_start_utc window_end_utc : Int) : List StatusInterval :=
  if polls = [] then [(window_start_utc, window_end_utc, "inactive")]
  else assembleIntervals (sortPolls polls) polls.length window_start_utc window_end_utc

/-- The caller's poll list as left behind by `get_status_intervals`: the code
sorts the caller's list in place (`polls.sort(...)`, line 36) after the
empty check on line 32, so the call returns with the list stably sorted. -/
def get_status_intervals_post (polls : List StoreStatusPoll) : List StoreStatusPoll :=
  if polls = [] then polls else sortPolls polls

/-- Total length of a list of status intervals (`end - start` summed). -/
def sumDurations (l : List StatusInterval) : Int :=
  (l.map (fun iv => iv.2.1 - iv.1)).sum

/-- `convert_utc_to_local` (time_utils.py lines 15-21) for a fixed-offset
timezone: the local civil time of a UTC instant. -/
def convert_utc_to_local (utc_dt : Int) (off : Int) : Int := utc_dt + off

/-- `.date()` of a local datetime: its local calendar day number. -/
def localDateOf (local_dt : Int) : Int := local_dt.fdiv microsPerDay

/-- `date.weekday()`: 0 = Monday .. 6 = Sunday; day 0 of the model is a
Monday. -/
def weekdayOf (d : Int) : Int := d.emod 7

/-- `datetime.combine(local_date, t).replace(tzinfo=tz).astimezone(utc)` for a
fixed-offset timezone: local day `d` at time-of-day `t`, as a UTC instant. -/
def localToUtc (d : Int) (t : Int) (off : Int) : Int :=
  d * microsPerDay + t - off

/-- One row of `business_hours` (models.py): a weekday (0 = Monday) with local
open and close times of day, in microseconds since local midnight. -/
structure BusinessHours where
  day_of_week : Int
  start_time_local : Int
  end_time_local : Int
deriving DecidableEq, Repr

/-- `get_business_hours_for_date` (time_utils.py lines 23-60): a same-day rule
yields one UTC interval; an overnight rule (`start_time > end_time`) yields a
first part ending at `time(23, 59, 59, 999999)` — i.e. `microsPerDay - 1`
microseconds into the day — and a second part from the next local midnight to
the end time on the next day. -/
def get_business_hours_for_date (local_date : Int) (start_time end_time : Int)
    (off : Int) : List (Int × Int) :=
  if start_time ≤ end_time then
    [(localToUtc local_date start_time off, localToUtc local_date end_time off)]
  else
    [(localToUtc local_date start_time off, localToUtc local_date (microsPerDay - 1) off),
     (localToUtc (local_date + 1) 0 off, localToUtc (local_date + 1) end_time off)]

/-- The dict comprehension `{bh.day_of_week: bh for bh in business_hours_db}`
followed by `.get(day_of_week)`: when several rows share a weekday the last
one wins, hence the lookup on the reversed list. -/
def businessHoursMapGet (business_hours_db : List BusinessHours) (dow : Int) :
    Option BusinessHours :=
  business_hours_db.reverse.find? (fun bh => bh.day_of_week == dow)

/-- The `while current_date <= local_end_date` loop of
`_get_relevant_business_hours` (reporting.py lines 45-58), unrolled over the
number of remaining dates: per date, the weekday's rule (when present) is
expanded and appended. -/
def collectDailyIntervals (business_hours_db : List BusinessHours) (off : Int)
    (current_date : Int) : Nat → List (Int × Int)
  | 0 => []
  | n + 1 =>
    (match businessHoursMapGet business_hours_db (weekdayOf current_date) with
     | some bh =>
       get_business_hours_for_date current_date bh.start_time_local bh.end_time_local off
     | none => []) ++ collectDailyIntervals business_hours_db off (current_date + 1) n

/-- `_get_relevant_business_hours` (reporting.py lines 23-60): no rules means
open 24/7 over the whole window; otherwise every local calendar date from the
window start's local date through the window end's local date contributes its
weekday rule's UTC intervals. -/
def _get_relevant_business_hours (window_start_utc window_end_utc : Int)
    (business_hours_db : List BusinessHours) (off : Int) : List (Int × Int) :=
  if business_hours_db = [] then [(window_start_utc, window_end_utc)]
  else
    let local_start_date := localDateOf (convert_utc_to_local window_start_utc off)
    let local_end_date := localDateOf (convert_utc_to_local window_end_utc off)
    collectDailyIntervals business_hours_db off local_start_date
      (local_end_date - local_start_date + 1).toNat

/-- The loop body of `_calculate_total_duration` for one pair of a status
interval and a business-hours interval (reporting.py lines 77-83): the length
of their overlap when positive, else nothing. -/
def overlapDuration (iv : StatusInterval) (bh : Int × Int) : Int :=
  let overlap_start := max iv.1 bh.1
  let overlap_end := min iv.2.1 bh.2
  if overlap_start < overlap_end then overlap_end - overlap_start else 0

/-- `_calculate_total_duration` (reporting.py lines 62-85): over every status
interval whose status equals the target (others are skipped by `continue`),
sum the overlap with every business-hours interval. -/
def _calculate_total_duration (status_intervals : List StatusInterval)
    (business_hours_utc : List (Int × Int)) (target_status : String) : Int :=
  (status_intervals.map (fun iv =>
    if iv.2.2 ≠ target_status then 0
    else (business_hours_utc.map (overlapDuration iv)).sum)).sum

/-- Python exceptions relevant to timezone resolution. -/
inductive PyTzError where
  | zoneInfoNotFound
  | valueError
deriving DecidableEq, Repr

/-- A resolved timezone object, identified by its IANA key (sufficient for
equality comparisons, which is all the claims need). -/
structure ZoneInfo where
  key : String
deriving DecidableEq, Repr

deriving instance DecidableEq for Except

/-- Splits a character list on slash separators (the character-level analogue
of Python's `s.split("/")`). -/
def splitSlash (cur : List Char) : List Char → List (List Char)
  | [] => [cur.reverse]
  | c :: rest =>
    if c = '/' then cur.reverse :: splitSlash [] rest else splitSlash (c :: cur) rest

/-- The documented key-validity rule of Python's `zoneinfo`: a key is rejected
as malformed (with `ValueError`, not `ZoneInfoNotFoundError`) when it is an
absolute path (starts with a slash) or contains a relative-path traversal
component (some slash-separated component is a double dot). -/
def zoneKeyMalformed (s : String) : Bool :=
  match s.data with
  | [] => false
  | c :: _ => c = '/' || (splitSlash [] s.data).contains ['.', '.']

/-- The set of IANA keys present in the timezone database, abstracted to a
finite list; only membership matters to the claims. -/
def knownZoneKeys : List String :=
  [ "America/Chicago", "America/New_York", "America/Los_Angeles", "UTC" ]

/-- The `zoneinfo.ZoneInfo` constructor per its documented contract:
`ValueError` for a malformed key, `ZoneInfoNotFoundError` for a well-formed
key absent from the database, otherwise the zone itself. -/
def zoneInfoLoad (key : String) : Except PyTzError ZoneInfo :=
  if zoneKeyMalformed key then .error .valueError
  else if knownZoneKeys.contains key then .ok ⟨key⟩
  else .error .zoneInfoNotFound

/-- `get_store_timezone` (time_utils.py lines 5-13): only
`ZoneInfoNotFoundError` is caught (falling back to `ZoneInfo("America/Chicago")`);
any other exception propagates to the caller (modelled as `.error`). -/
def get_store_timezone (timezone_str : String) : Except PyTzError ZoneInfo :=
  match zoneInfoLoad timezone_str with
  | .ok z => .ok z
  | .error .zoneInfoNotFound => zoneInfoLoad "America/Chicago"
  | .error e => .error e

/-- The `last_hour` slice of `calculate_store_report` (reporting.py lines
104, 130-146): window `(now - 1h, now)`, status timeline, relevant business
hours, and the pair `(uptime_last_hour_minutes, downtime_last_hour_minutes)`
computed as `duration.total_seconds() / 60`, i.e. microseconds divided by
6·10⁷, as an exact rational. -/
def lastHourReportMinutes (polls : List StoreStatusPoll)
    (business_hours_db : List BusinessHours) (off : Int) (now_utc : Int) :
    ℚ × ℚ :=
  let window_start := now_utc - microsPerHour
  let window_end := now_utc
  let status_intervals := get_status_intervals polls window_start window_end
  let business_hours_utc :=
    _get_relevant_business_hours window_start window_end business_hours_db off
  (((_calculate_total_duration status_intervals business_hours_utc "active" : Int) : ℚ) / 60000000,
   ((_calculate_total_duration status_intervals business_hours_utc "inactive" : Int) : ℚ) / 60000000)

/-! ## Structural facts about the interpolator -/

/-- Consecutive intervals share an endpoint: the first ends where the second
starts (contiguity, hence no gap). -/
def contiguousStep (a b : StatusInterval) : Prop := a.2.1 = b.1

/-- An earlier interval ends no later than a later one starts: for half-open
intervals this is exactly non-overlap. -/
def noOverlapStep (a b : StatusInterval) : Prop := a.2.1 ≤ b.1

theorem pairwiseIntervals_nil : pairwiseIntervals [] = [] := rfl

theorem pairwiseIntervals_single (a : StoreStatusPoll) : pairwiseIntervals [a] = [] := rfl

theorem pairwiseIntervals_cons₂ (a b : StoreStatusPoll) (rest : List StoreStatusPoll) :
    pairwiseIntervals (a :: b :: rest) =
      (a.timestamp_utc, b.timestamp_utc, a.status) :: pairwiseIntervals (b :: rest) := rfl

theorem pairwiseIntervals_chain :
    ∀ l : List StoreStatusPoll, List.Chain' contiguousStep (pairwiseIntervals l)
  | [] => by simp [pairwiseIntervals_nil]
  | [a] => by simp [pairwiseIntervals_single]
  | a :: b :: rest => by
    have ih := pairwiseIntervals_chain (b :: rest)
    cases rest with
    | nil => simp [pairwiseIntervals_cons₂, pairwiseIntervals_single]
    | cons c rest2 =>
      rw [pairwiseIntervals_cons₂, pairwiseIntervals_cons₂, List.chain'_cons]
      refine ⟨rfl, ?_⟩
      rw [pairwiseIntervals_cons₂] at ih
      exact ih

theorem getLastD_append_single (l : List StoreStatusPoll) (x d : StoreStatusPoll) :
    (l ++ [x]).getLastD d = x := by
  induction l generalizing d with
  | nil => rfl
  | cons a l ih => rw [List.cons_append, List.getLastD_cons]; exact ih a

theorem getLastD_cons_mem (p : StoreStatusPoll) (ps : List StoreStatusPoll) :
    ps.getLastD p ∈ p :: ps := by
  induction ps generalizing p with
  | nil => exact List.mem_singleton.mpr rfl
  | cons b rest ih =>
    rw [List.getLastD_cons]
    exact List.mem_cons_of_mem p (ih b)

theorem pairwiseIntervals_append_last :
    ∀ (a : StoreStatusPoll) (l : List StoreStatusPoll) (x : StoreStatusPoll),
    pairwiseIntervals ((a :: l) ++ [x]) =
      pairwiseIntervals (a :: l) ++
        [((l.getLastD a).timestamp_utc, x.timestamp_utc, (l.getLastD a).status)]
  | a, [], x => by simp [pairwiseIntervals_cons₂, pairwiseIntervals_single]
  | a, b :: rest, x => by
    have ih := pairwiseIntervals_append_last b rest x
    rw [List.cons_append] at ih ⊢
    rw [show a :: (b :: rest ++ [x]) = a :: b :: (rest ++ [x]) from rfl,
      pairwiseIntervals_cons₂, ih, pairwiseIntervals_cons₂, List.getLastD_cons,
      List.cons_append]

theorem pairwiseIntervals_sum :
    ∀ (a : StoreStatusPoll) (l : List StoreStatusPoll),
    sumDurations (pairwiseIntervals (a :: l)) =
      (l.getLastD a).timestamp_utc - a.timestamp_utc
  | _, [] => by simp [pairwiseIntervals_single, sumDurations]
  | a, b :: rest => by
    have ih := pairwiseIntervals_sum b rest
    rw [pairwiseIntervals_cons₂]
    simp only [sumDurations, List.map_cons, List.sum_cons] at ih ⊢
    rw [List.getLastD_cons, ih]
    omega

theorem pairwiseIntervals_last_end :
    ∀ (a b : StoreStatusPoll) (l : List StoreStatusPoll) (d : StatusInterval),
    ((pairwiseIntervals (a :: b :: l)).getLastD d).2.1 = ((b :: l).getLastD a).timestamp_utc
  | a, b, [], d => by
    simp [pairwiseIntervals_cons₂, pairwiseIntervals_single, List.getLastD_cons]
  | a, b, c :: l, d => by
    have ih := pairwiseIntervals_last_end b c l (a.timestamp_utc, b.timestamp_utc, a.status)
    rw [pairwiseIntervals_cons₂, pairwiseIntervals_cons₂]
    rw [pairwiseIntervals_cons₂] at ih
    rw [List.getLastD_cons, List.getLastD_cons]
    rw [List.getLastD_cons] at ih
    exact ih

theorem pairwiseIntervals_rel (r : Int → Int → Prop) :
    ∀ l : List StoreStatusPoll,
    List.Chain' (fun p q : StoreStatusPoll => r p.timestamp_utc q.timestamp_utc) l →
    ∀ iv ∈ pairwiseIntervals l, r iv.1 iv.2.1
  | [], _, iv, h => by simp [pairwiseIntervals_nil] at h
  | [a], _, iv, h => by simp [pairwiseIntervals_single] at h
  | a :: b :: rest, hc, iv, h => by
    rw [List.chain'_cons] at hc
    rw [pairwiseIntervals_cons₂, List.mem_cons] at h
    cases h with
    | inl h => subst h; exact hc.1
    | inr h => exact pairwiseIntervals_rel r (b :: rest) hc.2 iv h

theorem chain_le_getLastD :
    ∀ (b : StoreStatusPoll) (l : List StoreStatusPoll),
    List.Chain' (fun x y : StoreStatusPoll => x.timestamp_utc ≤ y.timestamp_utc) (b :: l) →
    b.timestamp_utc ≤ (l.getLastD b).timestamp_utc
  | _, [], _ => le_refl _
  | b, c :: l, h => by
    rw [List.chain'_cons] at h
    have := chain_le_getLastD c l h.2
    rw [List.getLastD_cons]
    omega

theorem chain_head_le (x : StatusInterval) :
    ∀ l : List StatusInterval, List.Chain' contiguousStep (x :: l) →
    (∀ iv ∈ x :: l, iv.1 ≤ iv.2.1) → ∀ y ∈ l, x.2.1 ≤ y.1
  | [], _, _, y, hy => by simp at hy
  | z :: l, hc, hwf, y, hy => by
    rw [List.chain'_cons] at hc
    rw [List.mem_cons] at hy
    cases hy with
    | inl hy => subst hy; exact le_of_eq hc.1
    | inr hy =>
      have hz : z.2.1 ≤ y.1 :=
        chain_head_le z l hc.2 (fun iv hiv => hwf iv (List.mem_cons_of_mem x hiv)) y hy
      have hzwf : z.1 ≤ z.2.1 := hwf z (by simp)
      have : x.2.1 = z.1 := hc.1
      omega

theorem chain_pairwise_noOverlap :
    ∀ l : List StatusInterval, List.Chain' contiguousStep l →
    (∀ iv ∈ l, iv.1 ≤ iv.2.1) → List.Pairwise noOverlapStep l
  | [], _, _ => List.Pairwise.nil
  | x :: l, hc, hwf =>
    List.Pairwise.cons (chain_head_le x l hc hwf)
      (chain_pairwise_noOverlap l hc.tail
        (fun iv hiv => hwf iv (List.mem_cons_of_mem x hiv)))

/-- The sorted poll list extended by the boundary pseudo-polls: a poll at
`window_start` carrying the first status when backward extrapolation fires,
and a poll at `window_end` carrying the last status when forward
extrapolation fires. The assembled intervals of `get_status_intervals` are
exactly the pairwise intervals of this list. -/
def boundaryPolls (p : StoreStatusPoll) (ps : List StoreStatusPoll) (ws we : Int) :
    List StoreStatusPoll :=
  (if ws < p.timestamp_utc then [⟨ws, p.status⟩] else []) ++ (p :: ps) ++
    (if (ps.getLastD p).timestamp_utc < we then [⟨we, (ps.getLastD p).status⟩] else [])

theorem boundary_build (p : StoreStatusPoll) (ps : List StoreStatusPoll) (ws we : Int) :
    (if ws < p.timestamp_utc then [(ws, p.timestamp_utc, p.status)] else []) ++
      pairwiseIntervals (p :: ps) ++
      (if (ps.getLastD p).timestamp_utc < we then
        [((ps.getLastD p).timestamp_utc, we, (ps.getLastD p).status)] else []) =
    pairwiseIntervals (boundaryPolls p ps ws we) := by
  unfold boundaryPolls
  by_cases h1 : ws < p.timestamp_utc <;> by_cases h2 : (ps.getLastD p).timestamp_utc < we <;>
    simp only [h1, h2, if_pos, if_neg, not_false_iff, List.nil_append, List.append_nil,
      List.singleton_append, List.cons_append]
  · rw [pairwiseIntervals_cons₂]
    rw [show (p :: (ps ++ [(⟨we, (ps.getLastD p).status⟩ : StoreStatusPoll)])) =
      (p :: ps) ++ [⟨we, (ps.getLastD p).status⟩] from rfl]
    rw [pairwiseIntervals_append_last]
  · rw [pairwiseIntervals_cons₂]
  · rw [show (p :: (ps ++ [(⟨we, (ps.getLastD p).status⟩ : StoreStatusPoll)])) =
      (p :: ps) ++ [⟨we, (ps.getLastD p).status⟩] from rfl]
    rw [pairwiseIntervals_append_last]

theorem getLast_cons_eq_getLastD (p : StoreStatusPoll) (ps : List StoreStatusPoll) :
    (p :: ps).getLast (List.cons_ne_nil p ps) = ps.getLastD p := by
  induction ps generalizing p with
  | nil => rfl
  | cons b rest ih =>
    rw [List.getLastD_cons, List.getLast_cons (List.cons_ne_nil b rest)]
    exact ih b

theorem getLast?_cons_eq (p : StoreStatusPoll) (ps : List StoreStatusPoll) :
    (p :: ps).getLast? = some (ps.getLastD p) := by
  induction ps generalizing p with
  | nil => rfl
  | cons b rest ih =>
    rw [List.getLastD_cons, List.getLast?_cons_cons]
    exact ih b

theorem assembleIntervals_cons (p : StoreStatusPoll) (ps : List StoreStatusPoll)
    (origLen : Nat) (ws we : Int) :
    assembleIntervals (p :: ps) origLen ws we =
      if pairwiseIntervals (boundaryPolls p ps ws we) = [] ∧ origLen = 1 then
        [(ws, we, p.status)]
      else pairwiseIntervals (boundaryPolls p ps ws we) := by
  simp only [assembleIntervals]
  rw [getLast_cons_eq_getLastD, boundary_build]

theorem chain'_append_single {r : StoreStatusPoll → StoreStatusPoll → Prop} :
    ∀ (p : StoreStatusPoll) (ps : List StoreStatusPoll) (x : StoreStatusPoll),
    List.Chain' r (p :: ps) → r (ps.getLastD p) x → List.Chain' r ((p :: ps) ++ [x])
  | p, [], x, _, hr => by
    simp only [List.getLastD_nil] at hr
    exact List.chain'_cons.mpr ⟨hr, List.chain'_singleton x⟩
  | p, b :: ps, x, hc, hr => by
    rw [List.getLastD_cons] at hr
    rw [List.chain'_cons] at hc
    have tail := chain'_append_single b ps x hc.2 hr
    rw [List.cons_append] at tail
    show List.Chain' r (p :: b :: (ps ++ [x]))
    exact List.chain'_cons.mpr ⟨hc.1, tail⟩

theorem boundaryPolls_chain (r : Int → Int → Prop) (p : StoreStatusPoll)
    (ps : List StoreStatusPoll) (ws we : Int)
    (hs : List.Chain' (fun x y : StoreStatusPoll => r x.timestamp_utc y.timestamp_utc) (p :: ps))
    (h1 : ws < p.timestamp_utc → r ws p.timestamp_utc)
    (h2 : (ps.getLastD p).timestamp_utc < we → r (ps.getLastD p).timestamp_utc we) :
    List.Chain' (fun x y : StoreStatusPoll => r x.timestamp_utc y.timestamp_utc)
      (boundaryPolls p ps ws we) := by
  unfold boundaryPolls
  by_cases h1c : ws < p.timestamp_utc <;> by_cases h2c : (ps.getLastD p).timestamp_utc < we <;>
    simp only [h1c, h2c, if_pos, if_neg, not_false_iff, List.nil_append, List.append_nil,
      List.singleton_append]
  · rw [show ((⟨ws, p.status⟩ : StoreStatusPoll) :: (p :: ps) ++
      [(⟨we, (ps.getLastD p).status⟩ : StoreStatusPoll)]) =
      (⟨ws, p.status⟩ : StoreStatusPoll) :: (p :: (ps ++
        [(⟨we, (ps.getLastD p).status⟩ : StoreStatusPoll)])) from rfl, List.chain'_cons]
    refine ⟨h1 h1c, ?_⟩
    have := chain'_append_single p ps ⟨we, (ps.getLastD p).status⟩ hs (h2 h2c)
    rw [List.cons_append] at this
    exact this
  · exact List.chain'_cons.mpr ⟨h1 h1c, hs⟩
  · exact chain'_append_single p ps ⟨we, (ps.getLastD p).status⟩ hs (h2 h2c)
  · exact hs

theorem boundaryPolls_decomp (p : StoreStatusPoll) (ps : List StoreStatusPoll) (ws we : Int)
    (hwin : ws < we) (hlo : ws ≤ p.timestamp_utc)
    (hhi : (ps.getLastD p).timestamp_utc ≤ we) :
    ∃ a l, boundaryPolls p ps ws we = a :: l ∧ a.timestamp_utc = ws ∧
      (l.getLastD a).timestamp_utc = we ∧ l ≠ [] := by
  unfold boundaryPolls
  by_cases h1 : ws < p.timestamp_utc <;> by_cases h2 : (ps.getLastD p).timestamp_utc < we <;>
    simp only [h1, h2, if_pos, if_neg, not_false_iff, List.nil_append, List.append_nil,
      List.singleton_append, List.cons_append]
  · refine ⟨⟨ws, p.status⟩, p :: (ps ++ [⟨we, (ps.getLastD p).status⟩]), rfl, rfl, ?_, by simp⟩
    rw [List.getLastD_cons, getLastD_append_single]
  · refine ⟨⟨ws, p.status⟩, p :: ps, rfl, rfl, ?_, List.cons_ne_nil _ _⟩
    rw [List.getLastD_cons]
    omega
  · have hpt : p.timestamp_utc = ws := by omega
    refine ⟨p, ps ++ [⟨we, (ps.getLastD p).status⟩], rfl, hpt, ?_, by simp⟩
    rw [getLastD_append_single]
  · have hpt : p.timestamp_utc = ws := by omega
    have hlast : (ps.getLastD p).timestamp_utc = we := by omega
    cases ps with
    | nil =>
      exfalso
      simp only [List.getLastD_nil] at hlast
      omega
    | cons b rest => exact ⟨p, b :: rest, rfl, hpt, hlast, List.cons_ne_nil _ _⟩

theorem get_status_intervals_decomp (polls : List StoreStatusPoll) (ws we : Int)
    (hwin : ws < we)
    (hin : ∀ q ∈ polls, ws ≤ q.timestamp_utc ∧ q.timestamp_utc ≤ we) :
    ∃ a l, get_status_intervals polls ws we = pairwiseIntervals (a :: l) ∧
      a.timestamp_utc = ws ∧ (l.getLastD a).timestamp_utc = we ∧ l ≠ [] ∧
      List.Chain' (fun x y : StoreStatusPoll => x.timestamp_utc ≤ y.timestamp_utc) (a :: l) := by
  by_cases hemp : polls = []
  · subst hemp
    refine ⟨⟨ws, "inactive"⟩, [⟨we, "inactive"⟩], ?_, rfl, rfl, by simp, ?_⟩
    · simp [get_status_intervals, pairwiseIntervals_cons₂, pairwiseIntervals_single]
    · exact List.chain'_cons.mpr ⟨le_of_lt hwin, List.chain'_singleton _⟩
  · have hperm : List.Perm (sortPolls polls) polls := List.perm_insertionSort pollKeyLe polls
    have hsne : sortPolls polls ≠ [] := by
      intro h
      exact hemp (List.Perm.eq_nil (h ▸ hperm).symm)
    obtain ⟨p, ps, hsp⟩ := List.exists_cons_of_ne_nil hsne
    have hsorted : List.Pairwise pollKeyLe (p :: ps) := by
      have h := List.sorted_insertionSort pollKeyLe polls
      rw [show polls.insertionSort pollKeyLe = sortPolls polls from rfl, hsp] at h
      exact h
    have hinS : ∀ q ∈ p :: ps, ws ≤ q.timestamp_utc ∧ q.timestamp_utc ≤ we := by
      intro q hq
      apply hin
      have hq2 : q ∈ sortPolls polls := by rw [hsp]; exact hq
      exact hperm.mem_iff.mp hq2
    have hlo : ws ≤ p.timestamp_utc := (hinS p (by simp)).1
    have hhi : (ps.getLastD p).timestamp_utc ≤ we := (hinS _ (getLastD_cons_mem p ps)).2
    obtain ⟨a, l, haug, hat, hlt, hlne⟩ := boundaryPolls_decomp p ps ws we hwin hlo hhi
    have hchain : List.Chain' (fun x y : StoreStatusPoll =>
        x.timestamp_utc ≤ y.timestamp_utc) (a :: l) := by
      have hc := boundaryPolls_chain (fun x y => x ≤ y) p ps ws we
        (List.Pairwise.chain' hsorted) (fun h => le_of_lt h) (fun h => le_of_lt h)
      rw [haug] at hc
      exact hc
    obtain ⟨b, rest, hl⟩ := List.exists_cons_of_ne_nil hlne
    refine ⟨a, l, ?_, hat, hlt, hlne, hchain⟩
    unfold get_status_intervals
    rw [if_neg hemp, hsp, assembleIntervals_cons, haug, hl, pairwiseIntervals_cons₂,
      if_neg (by simp)]

/-! ## Arithmetic of overlap sums -/

theorem overlapDuration_eq_clip (iv : StatusInterval) (bh : Int × Int) :
    overlapDuration iv bh = max 0 (min iv.2.1 bh.2 - max iv.1 bh.1) := by
  show (if max iv.1 bh.1 < min iv.2.1 bh.2 then min iv.2.1 bh.2 - max iv.1 bh.1 else 0) = _
  split <;> omega

theorem overlapDuration_nonneg (iv : StatusInterval) (bh : Int × Int) :
    0 ≤ overlapDuration iv bh := by
  rw [overlapDuration_eq_clip]
  omega

theorem pairwiseIntervals_overlap_sum (bh : Int × Int) :
    ∀ (a : StoreStatusPoll) (l : List StoreStatusPoll),
    List.Chain' (fun p q : StoreStatusPoll => p.timestamp_utc ≤ q.timestamp_utc) (a :: l) →
    ((pairwiseIntervals (a :: l)).map (fun iv => overlapDuration iv bh)).sum =
      max 0 (min ((l.getLastD a).timestamp_utc) bh.2 - max a.timestamp_utc bh.1)
  | a, [], _ => by
    simp only [pairwiseIntervals_single, List.map_nil, List.sum_nil, List.getLastD_nil]
    omega
  | a, b :: rest, hc => by
    rw [List.chain'_cons] at hc
    have ih := pairwiseIntervals_overlap_sum bh b rest hc.2
    have hbl : b.timestamp_utc ≤ (rest.getLastD b).timestamp_utc :=
      chain_le_getLastD b rest hc.2
    have hab : a.timestamp_utc ≤ b.timestamp_utc := hc.1
    rw [pairwiseIntervals_cons₂]
    simp only [List.map_cons, List.sum_cons, List.getLastD_cons]
    rw [ih, overlapDuration_eq_clip]
    simp only []
    omega

theorem sum_map_add {α : Type} (l : List α) (f g : α → Int) :
    (l.map f).sum + (l.map g).sum = (l.map (fun x => f x + g x)).sum := by
  induction l with
  | nil => simp
  | cons a l ih =>
    simp only [List.map_cons, List.sum_cons]
    omega

theorem sum_map_swap {α β : Type} (l : List α) (m : List β) (f : α → β → Int) :
    (l.map (fun a => (m.map (fun b => f a b)).sum)).sum =
      (m.map (fun b => (l.map (fun a => f a b)).sum)).sum := by
  induction l with
  | nil =>
    simp only [List.map_nil, List.sum_nil]
    rw [eq_comm, List.sum_eq_zero]
    intro x hx
    rw [List.mem_map] at hx
    obtain ⟨b, _, hb⟩ := hx
    simp [← hb]
  | cons a l ih =>
    simp only [List.map_cons, List.sum_cons, ih]
    rw [sum_map_add]

theorem sum_clipped_le :
    ∀ (l : List (Int × Int)) (lo hi : Int),
    List.Pairwise (fun a b : Int × Int => a.2 ≤ b.1) l →
    ((l.map (fun bh => max 0 (min hi bh.2 - max lo bh.1))).sum) ≤ max 0 (hi - lo)
  | [], lo, hi, _ => by simp
  | B :: l, lo, hi, hp => by
    rw [List.pairwise_cons] at hp
    obtain ⟨hB, hp2⟩ := hp
    have hcongr : l.map (fun bh => max 0 (min hi bh.2 - max lo bh.1)) =
        l.map (fun bh => max 0 (min hi bh.2 - max (max lo (min hi B.2)) bh.1)) := by
      apply List.map_congr_left
      intro b hb
      have := hB b hb
      omega
    have ih := sum_clipped_le l (max lo (min hi B.2)) hi hp2
    simp only [List.map_cons, List.sum_cons]
    rw [hcongr]
    omega

/-- With pairwise-distinct timestamps the sorted list is independent of the
input order. -/
theorem sortPolls_eq_of_perm (polls₁ polls₂ : List StoreStatusPoll)
    (hperm : List.Perm polls₁ polls₂)
    (hnd : List.Pairwise (fun p q : StoreStatusPoll =>
      p.timestamp_utc ≠ q.timestamp_utc) polls₁) :
    sortPolls polls₁ = sortPolls polls₂ := by
  have hp1 : List.Perm (sortPolls polls₁) polls₁ := List.perm_insertionSort pollKeyLe polls₁
  have hp2 : List.Perm (sortPolls polls₂) polls₂ := List.perm_insertionSort pollKeyLe polls₂
  have hpp : List.Perm (sortPolls polls₁) (sortPolls polls₂) :=
    (hp1.trans hperm).trans hp2.symm
  have hnd1 : List.Pairwise (fun p q : StoreStatusPoll =>
      p.timestamp_utc ≠ q.timestamp_utc) (sortPolls polls₁) :=
    (List.Perm.pairwise_iff (fun h => h.symm) hp1).mpr hnd
  have hnd2 : List.Pairwise (fun p q : StoreStatusPoll =>
      p.timestamp_utc ≠ q.timestamp_utc) (sortPolls polls₂) :=
    (List.Perm.pairwise_iff (fun h => h.symm) hpp).mp hnd1
  have hs1 : List.Pairwise pollKeyLe (sortPolls polls₁) :=
    List.sorted_insertionSort pollKeyLe polls₁
  have hs2 : List.Pairwise pollKeyLe (sortPolls polls₂) :=
    List.sorted_insertionSort pollKeyLe polls₂
  have hstrict1 : List.Pairwise (fun p q : StoreStatusPoll =>
      p.timestamp_utc < q.timestamp_utc) (sortPolls polls₁) :=
    (hs1.and hnd1).imp (fun h => lt_of_le_of_ne h.1 h.2)
  have hstrict2 : List.Pairwise (fun p q : StoreStatusPoll =>
      p.timestamp_utc < q.timestamp_utc) (sortPolls polls₂) :=
    (hs2.and hnd2).imp (fun h => lt_of_le_of_ne h.1 h.2)
  haveI : IsAntisymm StoreStatusPoll (fun p q : StoreStatusPoll =>
      p.timestamp_utc < q.timestamp_utc) :=
    ⟨fun a b h1 h2 => absurd h1 (by omega)⟩
  exact List.eq_of_perm_of_sorted hpp hstrict1 hstrict2

/-- Every interval collected for dates `≥ d0` starts strictly after the UTC
instant of local midnight opening day `d0`, provided every rule opens strictly
after local midnight. -/
theorem collectDailyIntervals_starts (business_hours_db : List BusinessHours) (off d0 : Int)
    (hpos : ∀ bh ∈ business_hours_db, 0 < bh.start_time_local) :
    ∀ (n : Nat) (d : Int), d0 ≤ d →
    ∀ iv ∈ collectDailyIntervals business_hours_db off d n,
      d0 * microsPerDay - off < iv.1
  | 0, d, _, iv, h => by simp [collectDailyIntervals] at h
  | n + 1, d, hd, iv, h => by
    rw [show collectDailyIntervals business_hours_db off d (n + 1) =
      (match businessHoursMapGet business_hours_db (weekdayOf d) with
       | some bh =>
         get_business_hours_for_date d bh.start_time_local bh.end_time_local off
       | none => []) ++ collectDailyIntervals business_hours_db off (d + 1) n from rfl,
      List.mem_append] at h
    cases h with
    | inr h =>
      exact collectDailyIntervals_starts business_hours_db off d0 hpos n (d + 1)
        (by omega) iv h
    | inl h =>
      cases hfind : businessHoursMapGet business_hours_db (weekdayOf d) with
      | none => rw [hfind] at h; simp at h
      | some bh =>
        rw [hfind] at h
        have hbmem : bh ∈ business_hours_db :=
          List.mem_reverse.mp (List.mem_of_find?_eq_some hfind)
        have hbpos : 0 < bh.start_time_local := hpos bh hbmem
        have h2 : iv ∈ get_business_hours_for_date d bh.start_time_local
          bh.end_time_local off := h
        unfold get_business_hours_for_date at h2
        by_cases hse : bh.start_time_local ≤ bh.end_time_local
        · rw [if_pos hse, List.mem_singleton] at h2
          subst h2
          show d0 * microsPerDay - off < localToUtc d bh.start_time_local off
          simp only [localToUtc, microsPerDay]
          omega
        · rw [if_neg hse, List.mem_cons, List.mem_singleton] at h2
          cases h2 with
          | inl h2 =>
            subst h2
            show d0 * microsPerDay - off < localToUtc d bh.start_time_local off
            simp only [localToUtc, microsPerDay]
            omega
          | inr h2 =>
            subst h2
            show d0 * microsPerDay - off < localToUtc (d + 1) 0 off
            simp only [localToUtc, microsPerDay]
            omega

/-! ## Claims -/

/-- Claim C1 (amended): for every window with `window_start < window_end` and
every observation sequence whose timestamps all lie within
`[window_start, window_end]`, the interval list returned by
`get_status_intervals` is non-empty, contiguous (each interval ends where the
next starts) and non-overlapping, its first interval starts exactly at
`window_start`, its last interval ends exactly at `window_end`, and the sum of
the interval durations equals `window_end - window_start`. (The original
claim, which also admitted observations outside the window, is refuted by
`claim_C1_counterexample`: an out-of-window poll timestamp leaks into the
first or last interval boundary unclipped.) -/
theorem claim_C1_interval_cover (polls : List StoreStatusPoll) (ws we : Int)
    (hwin : ws < we)
    (hin : ∀ q ∈ polls, ws ≤ q.timestamp_utc ∧ q.timestamp_utc ≤ we) :
    get_status_intervals polls ws we ≠ [] ∧
    List.Chain' contiguousStep (get_status_intervals polls ws we) ∧
    List.Pairwise noOverlapStep (get_status_intervals polls ws we) ∧
    ((get_status_intervals polls ws we).headD (0, 0, "")).1 = ws ∧
    ((get_status_intervals polls ws we).getLastD (0, 0, "")).2.1 = we ∧
    sumDurations (get_status_intervals polls ws we) = we - ws := by
  obtain ⟨a, l, hout, hat, hlt, hlne, hchain⟩ :=
    get_status_intervals_decomp polls ws we hwin hin
  obtain ⟨b, rest, hl⟩ := List.exists_cons_of_ne_nil hlne
  subst hl
  rw [hout]
  have hchain2 := pairwiseIntervals_chain (a :: b :: rest)
  have hwf : ∀ iv ∈ pairwiseIntervals (a :: b :: rest), iv.1 ≤ iv.2.1 :=
    pairwiseIntervals_rel (fun x y => x ≤ y) _ hchain
  refine ⟨?_, hchain2, chain_pairwise_noOverlap _ hchain2 hwf, ?_, ?_, ?_⟩
  · rw [pairwiseIntervals_cons₂]
    exact List.cons_ne_nil _ _
  · rw [pairwiseIntervals_cons₂]
    exact hat
  · rw [pairwiseIntervals_last_end]
    exact hlt
  · rw [pairwiseIntervals_sum]
    omega

/-- Witness for claim C1 at a concrete in-window input. -/
theorem claim_C1_interval_cover_witness :
    get_status_intervals [⟨150, "active"⟩] 100 200 ≠ [] ∧
    List.Chain' contiguousStep (get_status_intervals [⟨150, "active"⟩] 100 200) ∧
    List.Pairwise noOverlapStep (get_status_intervals [⟨150, "active"⟩] 100 200) ∧
    ((get_status_intervals [⟨150, "active"⟩] 100 200).headD (0, 0, "")).1 = 100 ∧
    ((get_status_intervals [⟨150, "active"⟩] 100 200).getLastD (0, 0, "")).2.1 = 200 ∧
    sumDurations (get_status_intervals [⟨150, "active"⟩] 100 200) = 200 - 100 :=
  claim_C1_interval_cover [⟨150, "active"⟩] 100 200 (by decide) (by decide)

/-- Counterexample to claim C1 as stated: a single observation at 50, outside
the window `[100, 200]`, makes the first interval start at 50 instead of
`window_start = 100` and makes the durations sum to 150 instead of 100 —
the code never clips out-of-window poll timestamps. -/
theorem claim_C1_counterexample :
    ((get_status_intervals [⟨50, "active"⟩] 100 200).headD (0, 0, "")).1 ≠ 100 ∧
    sumDurations (get_status_intervals [⟨50, "active"⟩] 100 200) ≠ 200 - 100 := by
  refine ⟨by decide, by decide⟩

/-- Claim C3 (amended): when `window_start < window_end` and the observation
timestamps are pairwise distinct, every interval returned by
`get_status_intervals` satisfies `start < end` — even for observations outside
the window or exactly at its boundaries. (The original claim also covered
inputs with duplicate timestamps; `claim_C3_counterexample` shows the pairwise
fill then emits a zero-length interval.) -/
theorem claim_C3_nondegenerate (polls : List StoreStatusPoll) (ws we : Int)
    (hwin : ws < we)
    (hnd : List.Pairwise (fun p q : StoreStatusPoll =>
      p.timestamp_utc ≠ q.timestamp_utc) polls) :
    ∀ iv ∈ get_status_intervals polls ws we, iv.1 < iv.2.1 := by
  intro iv hiv
  by_cases hemp : polls = []
  · subst hemp
    unfold get_status_intervals at hiv
    rw [if_pos rfl, List.mem_singleton] at hiv
    subst hiv
    exact hwin
  · have hperm : List.Perm (sortPolls polls) polls := List.perm_insertionSort pollKeyLe polls
    have hsne : sortPolls polls ≠ [] := fun h => hemp (List.Perm.eq_nil (h ▸ hperm).symm)
    obtain ⟨p, ps, hsp⟩ := List.exists_cons_of_ne_nil hsne
    have hsorted : List.Pairwise pollKeyLe (p :: ps) := by
      rw [← hsp]
      exact List.sorted_insertionSort pollKeyLe polls
    have hndS : List.Pairwise (fun p q : StoreStatusPoll =>
        p.timestamp_utc ≠ q.timestamp_utc) (p :: ps) := by
      rw [← hsp]
      exact (List.Perm.pairwise_iff (fun h => h.symm) hperm).mpr hnd
    have hstrict : List.Pairwise (fun x y : StoreStatusPoll =>
        x.timestamp_utc < y.timestamp_utc) (p :: ps) :=
      (hsorted.and hndS).imp (fun h => lt_of_le_of_ne h.1 h.2)
    unfold get_status_intervals at hiv
    rw [if_neg hemp, hsp, assembleIntervals_cons] at hiv
    by_cases hcond : pairwiseIntervals (boundaryPolls p ps ws we) = [] ∧ polls.length = 1
    · rw [if_pos hcond, List.mem_singleton] at hiv
      subst hiv
      exact hwin
    · rw [if_neg hcond] at hiv
      have hchain := boundaryPolls_chain (fun x y => x < y) p ps ws we
        (List.Pairwise.chain' hstrict) (fun h => h) (fun h => h)
      exact pairwiseIntervals_rel (fun x y => x < y) _ hchain iv hiv

/-- Witness for claim C3 at a concrete input with distinct timestamps,
including one observation exactly at the window end: the first emitted
interval is non-degenerate. -/
theorem claim_C3_nondegenerate_witness :
    ((100 : Int), (150 : Int), "active") ∈
      get_status_intervals [⟨150, "active"⟩, ⟨200, "inactive"⟩] 100 200 ∧
    ((100 : Int), (150 : Int), "active").1 < ((100 : Int), (150 : Int), "active").2.1 :=
  ⟨by decide, claim_C3_nondegenerate [⟨150, "active"⟩, ⟨200, "inactive"⟩] 100 200
    (by decide) (by decide) (100, 150, "active") (by decide)⟩

/-- Counterexample to claim C3 as stated: two observations sharing timestamp
50 make the pairwise fill emit the zero-length interval `(50, 50, "active")`. -/
theorem claim_C3_counterexample :
    ¬ ∀ iv ∈ get_status_intervals [⟨50, "active"⟩, ⟨50, "inactive"⟩] 0 100,
      iv.1 < iv.2.1 := by
  decide

/-- Claim C5 (amended): `get_status_intervals` sorts the caller's list in
place (`polls.sort(...)` on line 36 of interpolation.py), so after the call
the caller's list holds the same elements stably sorted by timestamp — a
permutation of the original in ascending order, unchanged only when the input
was already sorted. (The original claim, that the list is always unchanged,
is refuted by `claim_C5_counterexample`.) -/
theorem claim_C5_inplace_sort (polls : List StoreStatusPoll) :
    List.Perm (get_status_intervals_post polls) polls ∧
    List.Pairwise pollKeyLe (get_status_intervals_post polls) := by
  unfold get_status_intervals_post
  by_cases h : polls = []
  · rw [if_pos h]
    subst h
    exact ⟨List.Perm.refl _, List.Pairwise.nil⟩
  · rw [if_neg h]
    exact ⟨List.perm_insertionSort pollKeyLe polls, List.sorted_insertionSort pollKeyLe polls⟩

/-- Counterexample to claim C5 as stated: an unsorted caller list comes back
sorted, hence changed. -/
theorem claim_C5_counterexample :
    get_status_intervals_post [⟨2, "active"⟩, ⟨1, "inactive"⟩] ≠
      [⟨2, "active"⟩, ⟨1, "inactive"⟩] := by
  decide

/-- Claim C6 (amended): for observation sets with pairwise-distinct
timestamps, `get_status_intervals` returns the same interval list on every
permutation of the input. (With duplicate timestamps carrying different
statuses the result is order-dependent — `claim_C6_counterexample`.) -/
theorem claim_C6_perm_invariance (polls₁ polls₂ : List StoreStatusPoll) (ws we : Int)
    (hperm : List.Perm polls₁ polls₂)
    (hnd : List.Pairwise (fun p q : StoreStatusPoll =>
      p.timestamp_utc ≠ q.timestamp_utc) polls₁) :
    get_status_intervals polls₁ ws we = get_status_intervals polls₂ ws we := by
  by_cases hemp : polls₁ = []
  · subst hemp
    rw [List.Perm.eq_nil hperm.symm]
  · have hemp2 : polls₂ ≠ [] := fun h => hemp (List.Perm.eq_nil (h ▸ hperm))
    unfold get_status_intervals
    rw [if_neg hemp, if_neg hemp2, sortPolls_eq_of_perm polls₁ polls₂ hperm hnd,
      hperm.length_eq]

/-- Witness for claim C6 on a concrete two-element permutation with distinct
timestamps. -/
theorem claim_C6_perm_invariance_witness :
    get_status_intervals [⟨160, "inactive"⟩, ⟨150, "active"⟩] 100 200 =
      get_status_intervals [⟨150, "active"⟩, ⟨160, "inactive"⟩] 100 200 :=
  claim_C6_perm_invariance [⟨160, "inactive"⟩, ⟨150, "active"⟩]
    [⟨150, "active"⟩, ⟨160, "inactive"⟩] 100 200 (by decide) (by decide)

/-- Counterexample to claim C6 as stated: two observations share timestamp 50
with different statuses; swapping them is a permutation of the input but
changes the output statuses (the stable sort preserves input order of ties,
and the carried statuses follow that order). -/
theorem claim_C6_counterexample :
    List.Perm [(⟨50, "active"⟩ : StoreStatusPoll), ⟨50, "inactive"⟩]
      [⟨50, "inactive"⟩, ⟨50, "active"⟩] ∧
    get_status_intervals [⟨50, "active"⟩, ⟨50, "inactive"⟩] 0 100 ≠
      get_status_intervals [⟨50, "inactive"⟩, ⟨50, "active"⟩] 0 100 := by
  refine ⟨by decide, by decide⟩

/-- Claim C7 (amended): a single observation with timestamp strictly inside
the window, `window_start < T < window_end`, yields exactly the two intervals
`[(window_start, T, s), (T, window_end, s)]`. (At `T = window_start`, which
the original claim's half-open `[window_start, window_end)` includes, the code
returns the single interval `(window_start, window_end, s)` instead —
`claim_C7_counterexample`.) -/
theorem claim_C7_single_poll_split (t : Int) (s : String) (ws we : Int)
    (h1 : ws < t) (h2 : t < we) :
    get_status_intervals [⟨t, s⟩] ws we = [(ws, t, s), (t, we, s)] := by
  unfold get_status_intervals
  rw [if_neg (by simp)]
  have hs : sortPolls [⟨t, s⟩] = [⟨t, s⟩] := rfl
  rw [hs, assembleIntervals_cons]
  have hb : boundaryPolls ⟨t, s⟩ [] ws we = [⟨ws, s⟩, ⟨t, s⟩, ⟨we, s⟩] := by
    unfold boundaryPolls
    simp only [List.getLastD_nil]
    rw [if_pos h1, if_pos h2]
    rfl
  rw [hb, pairwiseIntervals_cons₂, pairwiseIntervals_cons₂, pairwiseIntervals_single,
    if_neg (by simp)]

/-- Witness for claim C7 at a concrete strictly-inside observation. -/
theorem claim_C7_single_poll_split_witness :
    get_status_intervals [⟨150, "active"⟩] 100 200 =
      [(100, 150, "active"), (150, 200, "active")] :=
  claim_C7_single_poll_split 150 "active" 100 200 (by decide) (by decide)

/-- Counterexample to claim C7 as stated: a single observation exactly at
`window_start = 100` (which lies inside the half-open `[100, 200)`) yields one
interval, not the two `[(100, 100, s), (100, 200, s)]` the claim asserts. -/
theorem claim_C7_counterexample :
    get_status_intervals [⟨100, "active"⟩] 100 200 = [(100, 200, "active")] ∧
    [((100 : Int), (200 : Int), "active")] ≠
      [((100 : Int), (100 : Int), "active"), ((100 : Int), (200 : Int), "active")] := by
  refine ⟨by decide, by decide⟩

/-- Claim C2 (amended): when every observation lies within the window
(`window_start < window_end`) and the business-hours intervals do not overlap
(each ends no later than the next starts), the active and inactive
intersection sums together never exceed the window duration. (The original
claim, for arbitrary observation sets, is refuted by
`claim_C2_counterexample`: an out-of-window observation makes the status
timeline leak outside the window and the sums can exceed the window
duration.) -/
theorem claim_C2_intersection_bound (polls : List StoreStatusPoll) (ws we : Int)
    (bh : List (Int × Int)) (hwin : ws < we)
    (hin : ∀ q ∈ polls, ws ≤ q.timestamp_utc ∧ q.timestamp_utc ≤ we)
    (hbh : List.Pairwise (fun a b : Int × Int => a.2 ≤ b.1) bh) :
    _calculate_total_duration (get_status_intervals polls ws we) bh "active" +
      _calculate_total_duration (get_status_intervals polls ws we) bh "inactive" ≤
      we - ws := by
  obtain ⟨a, l, hout, hat, hlt, hlne, hchain⟩ :=
    get_status_intervals_decomp polls ws we hwin hin
  have hnn : ∀ iv : StatusInterval, 0 ≤ (bh.map (overlapDuration iv)).sum := by
    intro iv
    apply List.sum_nonneg
    intro x hx
    rw [List.mem_map] at hx
    obtain ⟨b, _, hb⟩ := hx
    rw [← hb]
    exact overlapDuration_nonneg iv b
  have hstep1 : _calculate_total_duration (get_status_intervals polls ws we) bh "active" +
      _calculate_total_duration (get_status_intervals polls ws we) bh "inactive" ≤
      ((get_status_intervals polls ws we).map
        (fun iv => (bh.map (overlapDuration iv)).sum)).sum := by
    unfold _calculate_total_duration
    rw [sum_map_add]
    apply List.sum_le_sum
    intro iv _
    by_cases ha : iv.2.2 = "active"
    · have hb2 : iv.2.2 ≠ "inactive" := by rw [ha]; decide
      rw [if_neg (not_not.mpr ha), if_pos hb2]
      have := hnn iv
      omega
    · rw [if_pos ha]
      by_cases hb2 : iv.2.2 = "inactive"
      · rw [if_neg (not_not.mpr hb2)]
        omega
      · rw [if_pos hb2]
        have := hnn iv
        omega
  have hswap : ((get_status_intervals polls ws we).map
      (fun iv => (bh.map (overlapDuration iv)).sum)).sum =
      (bh.map (fun b => ((get_status_intervals polls ws we).map
        (fun iv => overlapDuration iv b)).sum)).sum :=
    sum_map_swap (get_status_intervals polls ws we) bh (fun iv b => overlapDuration iv b)
  have hper : ∀ b ∈ bh, ((get_status_intervals polls ws we).map
      (fun iv => overlapDuration iv b)).sum = max 0 (min we b.2 - max ws b.1) := by
    intro b _
    rw [hout]
    have hsum := pairwiseIntervals_overlap_sum b a l hchain
    rw [hsum, hat, hlt]
  have hbound : (bh.map (fun b => ((get_status_intervals polls ws we).map
      (fun iv => overlapDuration iv b)).sum)).sum ≤ max 0 (we - ws) := by
    rw [List.map_congr_left hper]
    exact sum_clipped_le bh ws we hbh
  omega

/-- Witness for claim C2 at a concrete in-window input with one
business-hours interval. -/
theorem claim_C2_intersection_bound_witness :
    _calculate_total_duration (get_status_intervals [⟨150, "active"⟩] 100 200)
      [(120, 180)] "active" +
      _calculate_total_duration (get_status_intervals [⟨150, "active"⟩] 100 200)
        [(120, 180)] "inactive" ≤ 200 - 100 :=
  claim_C2_intersection_bound [⟨150, "active"⟩] 100 200 [(120, 180)]
    (by decide) (by decide) (by decide)

/-- Counterexample to claim C2 as stated: one "active" observation 12 hours
before the last-hour window, with a 00:00-23:00 business-hours rule on the
window's (UTC) weekday, gives `uptime_last_hour_minutes = 780`, far above the
60-minute window — the business-hours intervals here are a single interval,
hence trivially non-overlapping, so the claim's proviso is met. -/
theorem claim_C2_counterexample :
    List.Pairwise (fun a b : Int × Int => a.2 ≤ b.1)
      (_get_relevant_business_hours (306000000000 - microsPerHour) 306000000000
        [⟨3, 0, 82800000000⟩] 0) ∧
    lastHourReportMinutes [⟨259200000000, "active"⟩] [⟨3, 0, 82800000000⟩]
      0 306000000000 = (780, 0) ∧
    ¬ ((780 : ℚ) + 0 ≤ 60) := by
  refine ⟨by decide, ?_, by norm_num⟩
  have h1 : _calculate_total_duration
      (get_status_intervals [⟨259200000000, "active"⟩]
        (306000000000 - microsPerHour) 306000000000)
      (_get_relevant_business_hours (306000000000 - microsPerHour) 306000000000
        [⟨3, 0, 82800000000⟩] 0) "active" = 46800000000 := by decide
  have h2 : _calculate_total_duration
      (get_status_intervals [⟨259200000000, "active"⟩]
        (306000000000 - microsPerHour) 306000000000)
      (_get_relevant_business_hours (306000000000 - microsPerHour) 306000000000
        [⟨3, 0, 82800000000⟩] 0) "inactive" = 0 := by decide
  simp only [lastHourReportMinutes, h1, h2]
  norm_num

/-- Claim C4 (amended): an overnight rule (`end_time < start_time`) on any
local date expands to exactly two UTC intervals separated by a gap of exactly
one microsecond at local midnight (the first part ends at `23:59:59.999999`),
so their combined span is `(24h - start_time + end_time)` minus one
microsecond — for a 22:00-04:00 rule, 6 hours minus one microsecond, not the
6 hours the original claim asserts (`claim_C4_counterexample`). -/
theorem claim_C4_overnight_gap (d st en off : Int) (hov : en < st) :
    get_business_hours_for_date d st en off =
      [(localToUtc d st off, localToUtc d (microsPerDay - 1) off),
       (localToUtc (d + 1) 0 off, localToUtc (d + 1) en off)] ∧
    localToUtc (d + 1) 0 off - localToUtc d (microsPerDay - 1) off = 1 ∧
    (localToUtc d (microsPerDay - 1) off - localToUtc d st off) +
      (localToUtc (d + 1) en off - localToUtc (d + 1) 0 off) =
      (microsPerDay - st + en) - 1 := by
  refine ⟨?_, ?_, ?_⟩
  · unfold get_business_hours_for_date
    rw [if_neg (by omega)]
  · simp only [localToUtc, microsPerDay]
    omega
  · simp only [localToUtc, microsPerDay]
    omega

/-- Witness for claim C4 at the 22:00-04:00 rule on day 0 in a zero-offset
timezone. -/
theorem claim_C4_overnight_gap_witness :
    get_business_hours_for_date 0 79200000000 14400000000 0 =
      [(localToUtc 0 79200000000 0, localToUtc 0 (microsPerDay - 1) 0),
       (localToUtc (0 + 1) 0 0, localToUtc (0 + 1) 14400000000 0)] ∧
    localToUtc (0 + 1) 0 0 - localToUtc 0 (microsPerDay - 1) 0 = 1 ∧
    (localToUtc 0 (microsPerDay - 1) 0 - localToUtc 0 79200000000 0) +
      (localToUtc (0 + 1) 14400000000 0 - localToUtc (0 + 1) 0 0) =
      (microsPerDay - 79200000000 + 14400000000) - 1 :=
  claim_C4_overnight_gap 0 79200000000 14400000000 0 (by decide)

/-- Counterexample to claim C4 as stated: for the 22:00-04:00 rule the two UTC
intervals are `[(79200000000, 86399999999), (86400000000, 100800000000)]` —
the first ends one microsecond before the second starts (a gap, not
contiguity), and the combined span is 21599999999 microseconds, not the
6 hours (21600000000 microseconds) the claim asserts. -/
theorem claim_C4_counterexample :
    get_business_hours_for_date 0 79200000000 14400000000 0 =
      [(79200000000, 86399999999), (86400000000, 100800000000)] ∧
    ¬ ((86399999999 : Int) = 86400000000) ∧
    ((86399999999 : Int) - 79200000000) + ((100800000000 : Int) - 86400000000) ≠
      21600000000 := by
  refine ⟨by decide, by decide, by decide⟩

/-- Claim C8 (amended): for every well-formed timezone identifier (not an
absolute path and without a relative-traversal component), `get_store_timezone`
returns without raising — a recognized IANA identifier resolves to itself and
an unrecognized one falls back to America/Chicago, because `ZoneInfoNotFoundError`
is caught. A malformed identifier, however, raises `ValueError`, which the
`except ZoneInfoNotFoundError` clause does not catch, so timezone resolution
can fail (`claim_C8_counterexample`). -/
theorem claim_C8_timezone_fallback (s : String) (hwf : zoneKeyMalformed s = false) :
    get_store_timezone s =
      Except.ok (if knownZoneKeys.contains s then ZoneInfo.mk s
        else ZoneInfo.mk "America/Chicago") := by
  have hload : zoneInfoLoad s =
      if knownZoneKeys.contains s then Except.ok ⟨s⟩
      else Except.error PyTzError.zoneInfoNotFound := by
    unfold zoneInfoLoad
    rw [hwf, if_neg (by decide)]
  unfold get_store_timezone
  rw [hload]
  by_cases hk : knownZoneKeys.contains s = true
  · rw [if_pos hk, if_pos hk]
  · rw [if_neg hk, if_neg hk]
    decide

/-- Witness for claim C8 at the well-formed but unrecognized identifier used
by the repository's own test. -/
theorem claim_C8_timezone_fallback_witness :
    get_store_timezone "Invalid/Timezone" =
      Except.ok (if knownZoneKeys.contains "Invalid/Timezone"
        then ZoneInfo.mk "Invalid/Timezone" else ZoneInfo.mk "America/Chicago") :=
  claim_C8_timezone_fallback "Invalid/Timezone" (by decide)

/-- Counterexample to claim C8 as stated: the malformed identifier
"../US/Central" makes the ZoneInfo constructor raise ValueError, which
propagates out of get_store_timezone instead of falling back — resolution
does fail for some identifier strings. -/
theorem claim_C8_counterexample :
    get_store_timezone "../US/Central" = Except.error PyTzError.valueError ∧
    ¬ ∃ z : ZoneInfo, get_store_timezone "../US/Central" = Except.ok z := by
  refine ⟨by decide, ?_⟩
  rintro ⟨z, hz⟩
  rw [show get_store_timezone "../US/Central" = Except.error PyTzError.valueError
    from by decide] at hz
  exact Except.noConfusion hz

/-- Claim C9: an empty observation set makes the interpolator return exactly
the single interval `(window_start, window_end, "inactive")`, and a store with
no observations and no business-hours rules gets
`uptime_last_hour_minutes = 0` and `downtime_last_hour_minutes = 60`. -/
theorem claim_C9_empty_inactive :
    (∀ ws we : Int, get_status_intervals [] ws we = [(ws, we, "inactive")]) ∧
    (∀ off now_utc : Int, lastHourReportMinutes [] [] off now_utc = (0, 60)) := by
  have hgs : ∀ ws we : Int, get_status_intervals [] ws we = [(ws, we, "inactive")] := by
    intro ws we
    unfold get_status_intervals
    rw [if_pos rfl]
  refine ⟨hgs, ?_⟩
  intro off now_utc
  simp only [lastHourReportMinutes]
  rw [hgs]
  have hb : _get_relevant_business_hours (now_utc - microsPerHour) now_utc [] off =
      [(now_utc - microsPerHour, now_utc)] := by
    unfold _get_relevant_business_hours
    rw [if_pos rfl]
  rw [hb]
  have hup : _calculate_total_duration
      [(now_utc - microsPerHour, now_utc, "inactive")]
      [(now_utc - microsPerHour, now_utc)] "active" = 0 := by
    unfold _calculate_total_duration
    simp only [List.map_cons, List.map_nil, List.sum_cons, List.sum_nil]
    rw [if_pos (by decide)]
    omega
  have hdown : _calculate_total_duration
      [(now_utc - microsPerHour, now_utc, "inactive")]
      [(now_utc - microsPerHour, now_utc)] "inactive" = microsPerHour := by
    unfold _calculate_total_duration
    simp only [List.map_cons, List.map_nil, List.sum_cons, List.sum_nil]
    rw [if_neg (fun h => h rfl), overlapDuration_eq_clip]
    simp only [microsPerHour]
    omega
  rw [hup, hdown]
  simp only [microsPerHour]
  norm_num [Prod.ext_iff]

/-- Claim C10: when the weekday of the local calendar date strictly before the
window start's local date carries an overnight rule (`end_time < start_time`),
and every rule opens strictly after local midnight, the business-hours set
assembled by `_get_relevant_business_hours` never contains the post-midnight
portion that date's rule would spill into the window:
`_get_relevant_business_hours` enumerates only the local dates from the window
start's local date through the window end's local date. -/
theorem claim_C10_no_previous_day_spill (ws we off : Int)
    (business_hours_db : List BusinessHours) (r : BusinessHours)
    (hfind : businessHoursMapGet business_hours_db
      (weekdayOf (localDateOf (convert_utc_to_local ws off) - 1)) = some r)
    (hov : r.end_time_local < r.start_time_local)
    (hpos : ∀ bh ∈ business_hours_db, 0 < bh.start_time_local) :
    ∀ iv ∈ (get_business_hours_for_date (localDateOf (convert_utc_to_local ws off) - 1)
        r.start_time_local r.end_time_local off).drop 1,
      iv ∉ _get_relevant_business_hours ws we business_hours_db off := by
  intro iv hiv
  have hexp : (get_business_hours_for_date (localDateOf (convert_utc_to_local ws off) - 1)
      r.start_time_local r.end_time_local off).drop 1 =
      [(localToUtc (localDateOf (convert_utc_to_local ws off)) 0 off,
        localToUtc (localDateOf (convert_utc_to_local ws off)) r.end_time_local off)] := by
    unfold get_business_hours_for_date
    rw [if_neg (by omega)]
    show [(localToUtc (localDateOf (convert_utc_to_local ws off) - 1 + 1) 0 off,
      localToUtc (localDateOf (convert_utc_to_local ws off) - 1 + 1) r.end_time_local off)] = _
    rw [sub_add_cancel]
  rw [hexp, List.mem_singleton] at hiv
  subst hiv
  have hne : business_hours_db ≠ [] := by
    intro h
    rw [h] at hfind
    simp [businessHoursMapGet] at hfind
  unfold _get_relevant_business_hours
  rw [if_neg hne]
  intro hmem
  have hlt := collectDailyIntervals_starts business_hours_db off
    (localDateOf (convert_utc_to_local ws off)) hpos
    ((localDateOf (convert_utc_to_local we off) -
      localDateOf (convert_utc_to_local ws off) + 1).toNat)
    (localDateOf (convert_utc_to_local ws off)) (le_refl _) _ hmem
  have hlt2 : localDateOf (convert_utc_to_local ws off) * microsPerDay - off <
      localToUtc (localDateOf (convert_utc_to_local ws off)) 0 off := hlt
  simp only [localToUtc, microsPerDay] at hlt2
  omega

/-- Witness for claim C10: a window inside local day 5 (a Saturday in the
model), an overnight 22:00-04:00 rule on weekday 4 and a same-day rule on
weekday 5; the previous date's concrete post-midnight spill interval
(local day 5 from midnight to 04:00, in UTC microseconds) is absent from the
assembled set. -/
theorem claim_C10_no_previous_day_spill_witness :
    ((432000000000 : Int), (446400000000 : Int)) ∉
      _get_relevant_business_hours 435600000000 439200000000
        [⟨4, 79200000000, 14400000000⟩, ⟨5, 3600000000, 82800000000⟩] 0 :=
  claim_C10_no_previous_day_spill 435600000000 439200000000 0
    [⟨4, 79200000000, 14400000000⟩, ⟨5, 3600000000, 82800000000⟩]
    ⟨4, 79200000000, 14400000000⟩ (by decide) (by decide) (by decide)
    (432000000000, 446400000000) (by decide)
